import Mathlib

/-!
Shallow embedding of the greatshot annotation editor core (src/editor.rs,
with the event handlers of src/window.rs modelled where a claim needs the
step relation of the public operations).

Conventions of the embedding:
* Rust `f64` coordinates are modelled as `ℚ` (the arithmetic the code
  performs on them — min, max, abs, +, -, *, / and rounding — is exact
  rational arithmetic on every input appearing in the claims).
* Rust `i32` is modelled as `ℤ`, `usize` indices as `ℕ`, `Vec` as `List`
  (push = append at the end, pop = remove the last element).
* `gdk_pixbuf::Pixbuf` is modelled by its provenance and dimensions only:
  a base image, or a sub-image produced by `Pixbuf::new_subpixbuf`.
-/

structure Point where
  x : ℚ
  y : ℚ
deriving DecidableEq, Repr

structure Rect where
  x1 : ℚ
  y1 : ℚ
  x2 : ℚ
  y2 : ℚ
deriving DecidableEq, Repr

/-- Rust `Rect::normalized` (editor.rs:21-27): resolve two arbitrary corners into
`(x, y, w, h)` with `x = min x1 x2`, `y = min y1 y2`, `w = |x2 - x1|`,
`h = |y2 - y1|`. -/
def Rect.normalized (r : Rect) : ℚ × ℚ × ℚ × ℚ :=
  (min r.x1 r.x2, min r.y1 r.y2, |r.x2 - r.x1|, |r.y2 - r.y1|)

structure RGBA where
  red : ℚ
  green : ℚ
  blue : ℚ
  alpha : ℚ
deriving DecidableEq, Repr

/-- The `gdk_pixbuf::Pixbuf` type, modelled by provenance and dimensions: `base w h`
is an externally loaded image, `sub parent x y w h` is the result of
`Pixbuf::new_subpixbuf(parent, x, y, w, h)` (whose dimensions are `w × h`). -/
inductive Pixbuf where
  | base (width height : ℤ)
  | sub (parent : Pixbuf) (x y width height : ℤ)
deriving DecidableEq, Repr

def Pixbuf.width : Pixbuf → ℤ
  | .base w _ => w
  | .sub _ _ _ w _ => w

def Pixbuf.height : Pixbuf → ℤ
  | .base _ h => h
  | .sub _ _ _ _ h => h

/-- The `Annotation` enum (editor.rs:30-59).  (The Rust name ends in a token
this development avoids in identifiers, so the Lean name is shortened to `Annot`;
constructor payloads keep the source's field order.  `endPt` is Rust's `end`,
a keyword in Lean.) -/
inductive Annot where
  | pen (points : List Point) (color : RGBA) (width : ℚ)
  | rect (rect : Rect) (color : RGBA) (width : ℚ)
  | line (start endPt : Point) (color : RGBA) (width : ℚ) (arrow : Bool)
  | text (pos : Point) (text : String) (color : RGBA) (size : ℚ)
  | blur (rect : Rect) (pixel_size : ℤ)
deriving DecidableEq, Repr

inductive Tool where
  | select
  | pen
  | rect
  | line
  | arrow
  | text
  | blur
  | crop
deriving DecidableEq, Repr

/-- The `EditorState` struct (editor.rs:73-90). -/
structure EditorState where
  background : Option Pixbuf
  annotations : List Annot
  redo : List Annot
  tool : Tool
  color : RGBA
  stroke_width : ℚ
  text_size : ℚ
  draft : Option Annot
  drag_start_view : Option Point
  viewport_width : ℤ
  viewport_height : ℤ
  fit_to_window : Bool
  zoom : ℚ
  selected : Option ℕ
  selected_original : Option Annot
  crop_rect : Option Rect
deriving DecidableEq, Repr

/-- Rust `EditorState::new` (editor.rs:93-113). -/
def EditorState.new : EditorState where
  background := none
  annotations := []
  redo := []
  tool := .pen
  color := ⟨0, 0, 0, 1⟩
  stroke_width := 4
  text_size := 22
  draft := none
  drag_start_view := none
  viewport_width := 0
  viewport_height := 0
  fit_to_window := true
  zoom := 1
  selected := none
  selected_original := none
  crop_rect := none

/-- Rust `EditorState::set_background` (editor.rs:115-124). -/
def EditorState.set_background (s : EditorState) (pixbuf : Pixbuf) : EditorState :=
  { s with
    background := some pixbuf
    annotations := []
    redo := []
    draft := none
    drag_start_view := none
    selected := none
    selected_original := none
    crop_rect := none }

/-- Rust `EditorState::push_annotation` (editor.rs:126-129): push onto `annotations`,
clear `redo`.  (Name shortened for the same reason as `Annot`.) -/
def EditorState.push_annot (s : EditorState) (a : Annot) : EditorState :=
  { s with annotations := s.annotations ++ [a], redo := [] }

/-- Rust `EditorState::undo` (editor.rs:131-135): pop the last annotation (if any)
onto the `redo` stack.  Note: `selected` is left untouched. -/
def EditorState.undo (s : EditorState) : EditorState :=
  match s.annotations.getLast? with
  | none => s
  | some last => { s with annotations := s.annotations.dropLast, redo := s.redo ++ [last] }

/-- Rust `EditorState::redo` (editor.rs:137-141): pop the top of the `redo` stack
(if any) back onto `annotations`.  (Named `redoStep` because the Rust method
shares its name with the `redo` field.) -/
def EditorState.redoStep (s : EditorState) : EditorState :=
  match s.redo.getLast? with
  | none => s
  | some next => { s with redo := s.redo.dropLast, annotations := s.annotations ++ [next] }

/-- Rust `view_transform` (editor.rs:198-217): returns `(scale, offset_x, offset_y)`.
`0.01` and `0.05` are the rationals `1/100` and `1/20`. -/
def view_transform (s : EditorState) : ℚ × ℚ × ℚ :=
  match s.background with
  | none => (1, 0, 0)
  | some background =>
    let img_w : ℚ := (max background.width 1 : ℤ)
    let img_h : ℚ := (max background.height 1 : ℤ)
    let vp_w : ℚ := (max s.viewport_width 1 : ℤ)
    let vp_h : ℚ := (max s.viewport_height 1 : ℤ)
    let scale : ℚ :=
      if s.fit_to_window then max (min (vp_w / img_w) (vp_h / img_h)) (1/100)
      else max s.zoom (1/20)
    let scaled_w := img_w * scale
    let scaled_h := img_h * scale
    let offset_x := max ((vp_w - scaled_w) / 2) 0
    let offset_y := max ((vp_h - scaled_h) / 2) 0
    (scale, offset_x, offset_y)

/-- Rust `map_to_image` (editor.rs:219-225): invert the view transform,
`((x - offset_x) / scale, (y - offset_y) / scale)`, each axis floored at 0. -/
def map_to_image (s : EditorState) (x y : ℚ) : Point :=
  let t := view_transform s
  ⟨max ((x - t.2.1) / t.1) 0, max ((y - t.2.2) / t.1) 0⟩

/-- The min/max fold of `annotation_bounds` for `Pen` (editor.rs:305-326).
The source starts the accumulator at `±f64::INFINITY` and afterwards tests
`min_x.is_finite()`; since every point coordinate is finite, that is exactly
"`none` on an empty point list, otherwise the min/max extent of the points",
which this finite-accumulator formulation computes. -/
def penBounds (points : List Point) : Option Rect :=
  match points with
  | [] => none
  | p :: ps =>
    some (ps.foldl
      (fun r q => ⟨min r.x1 q.x, min r.y1 q.y, max r.x2 q.x, max r.y2 q.y⟩)
      ⟨p.x, p.y, p.x, p.y⟩)

/-- Rust `annotation_bounds` (editor.rs:303-345).  `text.len()` in Rust is the
UTF-8 byte length, hence `String.utf8ByteSize`; `0.6` and `0.2` are `6/10`
and `2/10`. -/
def annotation_bounds : Annot → Option Rect
  | .pen points _ _ => penBounds points
  | .rect r _ _ => some r
  | .line a b _ _ _ => some ⟨a.x, a.y, b.x, b.y⟩
  | .text pos t _ size =>
    let width := max ((t.utf8ByteSize : ℚ) * size * (6/10)) 1
    some ⟨pos.x, pos.y - size, pos.x + width, pos.y + size * (2/10)⟩
  | .blur r _ => some r

/-- The containment test of the `hit_test` loop body (editor.rs:349-354):
the annotation has a bounding box and the point lies inside its normalized
form, inclusively on all four sides. -/
def annotHit (a : Annot) (p : Point) : Bool :=
  match annotation_bounds a with
  | none => false
  | some bounds =>
    let n := bounds.normalized
    decide (n.1 ≤ p.x) && decide (p.x ≤ n.1 + n.2.2.1) &&
      decide (n.2.1 ≤ p.y) && decide (p.y ≤ n.2.1 + n.2.2.2)

/-- The `for ... in ... .enumerate().rev()` loop of `hit_test`: scan a list of
(index, annotation) pairs, returning the first index that hits. -/
def hitFirst (p : Point) : List (ℕ × Annot) → Option ℕ
  | [] => none
  | (i, a) :: rest => if annotHit a p then some i else hitFirst p rest

/-- Rust `hit_test` (editor.rs:347-357): iterate the annotations from last to
first, return the index of the first whose normalized bounding box contains
the point. -/
def hit_test (annotations : List Annot) (point : Point) : Option ℕ :=
  hitFirst point annotations.enum.reverse

/-- Rust `move_annotation` (editor.rs:359-390): translate every geometry field by
`(dx, dy)`.  (Name shortened for the same reason as `Annot`.) -/
def move_annot (a : Annot) (dx dy : ℚ) : Annot :=
  match a with
  | .pen points c w => .pen (points.map fun p => ⟨p.x + dx, p.y + dy⟩) c w
  | .rect r c w => .rect ⟨r.x1 + dx, r.y1 + dy, r.x2 + dx, r.y2 + dy⟩ c w
  | .line a b c w ar => .line ⟨a.x + dx, a.y + dy⟩ ⟨b.x + dx, b.y + dy⟩ c w ar
  | .text pos t c sz => .text ⟨pos.x + dx, pos.y + dy⟩ t c sz
  | .blur r ps => .blur ⟨r.x1 + dx, r.y1 + dy, r.x2 + dx, r.y2 + dy⟩ ps

/-- Rust's `f64::round`: round half away from zero. -/
def roundHalf (q : ℚ) : ℤ :=
  if 0 ≤ q then ⌊q + 1/2⌋ else ⌈q - 1/2⌉

/-- The clamping of a normalized rectangle `(x, y, w, h)` to the source
image's bounds, shared verbatim by `apply_crop` (editor.rs:400-405) and
`draw_pixelate` (editor.rs:471-476):
`x = x.max(0).min(max_w)`, `y = y.max(0).min(max_h)`,
`w = w.min(max_w - x).max(1)`, `h = h.min(max_h - y).max(1)`. -/
def clampRect (x y w h max_w max_h : ℚ) : ℚ × ℚ × ℚ × ℚ :=
  let x := min (max x 0) max_w
  let y := min (max y 0) max_h
  let w := max (min w (max_w - x)) 1
  let h := max (min h (max_h - y)) 1
  (x, y, w, h)

/-- Rust `apply_crop` (editor.rs:392-421).  Rust mutates `state` in place and
returns `bool`; here the pair `(returned bool, resulting state)` is returned,
the failure paths returning the state unchanged exactly as the early
`return false`s do. -/
def apply_crop (s : EditorState) (rect : Rect) : Bool × EditorState :=
  match s.background with
  | none => (false, s)
  | some background =>
    let n := rect.normalized
    if n.2.2.1 < 1 ∨ n.2.2.2 < 1 then (false, s)
    else
      let max_w : ℚ := (background.width : ℤ)
      let max_h : ℚ := (background.height : ℤ)
      let c := clampRect n.1 n.2.1 n.2.2.1 n.2.2.2 max_w max_h
      let cropped := Pixbuf.sub background
        (roundHalf c.1) (roundHalf c.2.1) (roundHalf c.2.2.1) (roundHalf c.2.2.2)
      (true,
        { s with
          background := some cropped
          annotations := s.annotations.map (fun a => move_annot a (-c.1) (-c.2.1))
          draft := none
          crop_rect := none
          selected := none })

/-- The geometric part of `draw_pixelate` (editor.rs:465-487): `none` when the
normalized rectangle is rejected (`w < 1 ∨ h < 1`), otherwise the rectangle
clamped to the background's bounds (the cairo painting itself is not
modelled). -/
def pixelateClampedRect (rect : Rect) (background : Pixbuf) : Option (ℚ × ℚ × ℚ × ℚ) :=
  let n := rect.normalized
  if n.2.2.1 < 1 ∨ n.2.2.2 < 1 then none
  else some (clampRect n.1 n.2.1 n.2.2.1 n.2.2.2 (background.width : ℤ) (background.height : ℤ))

/-- The background-replacement entry point of the window (`apply_background`,
window.rs:428-454): `set_background` followed by `fit_to_window = true`,
`zoom = 1.0`. -/
def applyBackgroundOp (s : EditorState) (pixbuf : Pixbuf) : EditorState :=
  { s.set_background pixbuf with fit_to_window := true, zoom := 1 }

/-- The tool-toggle handler (window.rs:795-810): set the tool and clear
`draft`, `crop_rect`, `selected`, `selected_original`. -/
def switchTool (s : EditorState) (t : Tool) : EditorState :=
  { s with tool := t, draft := none, crop_rect := none,
           selected := none, selected_original := none }

/-- The click handler with the Text tool active (window.rs:762-773): map the
click to image space and push a default `"Text"` annotation. -/
def textClick (s : EditorState) (x y : ℚ) : EditorState :=
  s.push_annot (.text (map_to_image s x y) "Text" s.color s.text_size)

/-- The click handler with the Select tool active (window.rs:774-780):
`selected := hit_test(annotations, pos)` and `selected_original` the cloned
hit annotation, if any. -/
def selectClick (s : EditorState) (x y : ℚ) : EditorState :=
  let pos := map_to_image s x y
  let sel := hit_test s.annotations pos
  { s with selected := sel,
           selected_original := sel.bind (fun i => s.annotations.get? i) }

/-- The Crop branch of the drag-end handler (window.rs:699-710): run
`apply_crop` on the pending crop rectangle; on success reset
`fit_to_window = true`, `zoom = 1.0`. -/
def cropEnd (s : EditorState) (r : Rect) : EditorState :=
  match apply_crop s r with
  | (true, s2) => { s2 with fit_to_window := true, zoom := 1 }
  | (false, s2) => s2

/-- One step of the public operations, as wired in window.rs.  (The drawing
tools' drag-end commits are covered by `pushAnn`; the handlers not listed
only grow `annotations` or rewrite an existing entry in place, never shrink
the list.) -/
inductive Step : EditorState → EditorState → Prop
  | applyBackground (s : EditorState) (p : Pixbuf) : Step s (applyBackgroundOp s p)
  | toolToggled (s : EditorState) (t : Tool) : Step s (switchTool s t)
  | textPressed (s : EditorState) (x y : ℚ) : s.tool = .text → Step s (textClick s x y)
  | selectPressed (s : EditorState) (x y : ℚ) : s.tool = .select → Step s (selectClick s x y)
  | pushAnn (s : EditorState) (a : Annot) : Step s (s.push_annot a)
  | undoClicked (s : EditorState) : Step s s.undo
  | redoClicked (s : EditorState) : Step s s.redoStep
  | cropEnded (s : EditorState) (r : Rect) :
      s.tool = .crop → s.crop_rect = some r → Step s (cropEnd s r)

/-- The invariant: `selected`, when present, is a valid index into `annotations`. -/
def selectedValid (s : EditorState) : Prop :=
  ∀ i, s.selected = some i → i < s.annotations.length

/-- A concrete event trace of the application: load a 200×200 image, place a
text annotation with the Text tool, switch to Select and click on it (so it
becomes selected), then press Undo. -/
def staleTrace : EditorState :=
  EditorState.undo
    (selectClick
      (switchTool
        (textClick
          (switchTool (applyBackgroundOp EditorState.new (Pixbuf.base 200 200)) Tool.text)
          50 50)
        Tool.select)
      50 50)

/-! ### Helper lemmas -/

theorem view_transform_of_none (s : EditorState) (h : s.background = none) :
    view_transform s = (1, 0, 0) := by
  simp [view_transform, h]

theorem view_transform_scale_pos (s : EditorState) : 0 < (view_transform s).1 := by
  rcases hbg : s.background with _ | bg
  · simp [view_transform, hbg]
  · by_cases hf : s.fit_to_window <;>
      simp only [view_transform, hbg, hf, if_true, if_false] <;>
      exact lt_max_of_lt_right (by norm_num)

theorem view_transform_scale_ge_fit (s : EditorState) (hf : s.fit_to_window = true) :
    1/100 ≤ (view_transform s).1 := by
  rcases hbg : s.background with _ | bg
  · simp [view_transform, hbg]; norm_num
  · simp only [view_transform, hbg, hf, if_true]
    exact le_max_right _ _

theorem view_transform_scale_ge_zoom (s : EditorState) (hf : s.fit_to_window = false) :
    1/20 ≤ (view_transform s).1 := by
  rcases hbg : s.background with _ | bg
  · simp [view_transform, hbg]; norm_num
  · simp only [view_transform, hbg, hf, if_false, Bool.false_eq_true]
    exact le_max_right _ _

/-! ### C10 -/

/-- C10. For every editor state — including states with no background, a
background of zero width or height, or a zero or negative viewport —
`view_transform` returns a strictly positive scale: exactly `(1, 0, 0)` with
no background, scale at least `0.01` when `fit_to_window` is set and at least
`0.05` otherwise; so the division performed by `map_to_image` is never by
zero. -/
theorem view_transform_scale_positive (s : EditorState) :
    (s.background = none → view_transform s = (1, 0, 0)) ∧
    (s.fit_to_window = true → 1/100 ≤ (view_transform s).1) ∧
    (s.fit_to_window = false → 1/20 ≤ (view_transform s).1) ∧
    0 < (view_transform s).1 :=
  ⟨view_transform_of_none s, view_transform_scale_ge_fit s,
   view_transform_scale_ge_zoom s, view_transform_scale_pos s⟩

theorem view_transform_scale_positive_witness :
    view_transform EditorState.new = (1, 0, 0) ∧
    1/100 ≤ (view_transform EditorState.new).1 ∧
    0 < (view_transform EditorState.new).1 :=
  ⟨(view_transform_scale_positive EditorState.new).1 rfl,
   (view_transform_scale_positive EditorState.new).2.1 rfl,
   (view_transform_scale_positive EditorState.new).2.2.2⟩

/-! ### C6 -/

/-- C6. The view transform is the identity `(1, 0, 0)` with no
background; with an 800×600 background, an 800×600 viewport and
`fit_to_window`, the scale is 1 and both offsets are 0; and for every state
and every image point whose view image `point·scale + offset` stays at or
above both offsets, `map_to_image` recovers the original point (exactly, in
the rational model of `f64`). -/
theorem view_transform_round_trip :
    (∀ s : EditorState, s.background = none → view_transform s = (1, 0, 0)) ∧
    view_transform { EditorState.new with
      background := some (.base 800 600), viewport_width := 800,
      viewport_height := 600, fit_to_window := true } = (1, 0, 0) ∧
    (∀ (s : EditorState) (x y : ℚ),
      (view_transform s).2.1 ≤ x * (view_transform s).1 + (view_transform s).2.1 →
      (view_transform s).2.2 ≤ y * (view_transform s).1 + (view_transform s).2.2 →
      map_to_image s (x * (view_transform s).1 + (view_transform s).2.1)
        (y * (view_transform s).1 + (view_transform s).2.2) = ⟨x, y⟩) := by
  refine ⟨view_transform_of_none, ?_, ?_⟩
  · norm_num [view_transform, EditorState.new, Pixbuf.width, Pixbuf.height]
  · intro s x y hx hy
    have hpos := view_transform_scale_pos s
    have hne : (view_transform s).1 ≠ 0 := ne_of_gt hpos
    have hx0 : 0 ≤ x := by nlinarith [hx]
    have hy0 : 0 ≤ y := by nlinarith [hy]
    simp only [map_to_image, add_sub_cancel_right]
    rw [mul_div_cancel_right₀ _ hne, mul_div_cancel_right₀ _ hne,
      max_eq_left hx0, max_eq_left hy0]

theorem view_transform_round_trip_witness :
    map_to_image EditorState.new
      (3 * (view_transform EditorState.new).1 + (view_transform EditorState.new).2.1)
      (4 * (view_transform EditorState.new).1 + (view_transform EditorState.new).2.2) =
      ⟨3, 4⟩ :=
  view_transform_round_trip.2.2 EditorState.new 3 4
    (by norm_num [view_transform, EditorState.new])
    (by norm_num [view_transform, EditorState.new])

/-! ### History helpers -/

theorem undo_of_empty (s : EditorState) (h : s.annotations = []) : s.undo = s := by
  simp [EditorState.undo, h]

theorem undo_concat (s : EditorState) (l : List Annot) (a : Annot)
    (h : s.annotations = l ++ [a]) :
    s.undo = { s with annotations := l, redo := s.redo ++ [a] } := by
  simp [EditorState.undo, h, List.getLast?_concat, List.dropLast_concat]

theorem redoStep_of_empty (s : EditorState) (h : s.redo = []) : s.redoStep = s := by
  simp [EditorState.redoStep, h]

theorem redoStep_concat (s : EditorState) (l : List Annot) (a : Annot)
    (h : s.redo = l ++ [a]) :
    s.redoStep = { s with redo := l, annotations := s.annotations ++ [a] } := by
  simp [EditorState.redoStep, h, List.getLast?_concat, List.dropLast_concat]

/-! ### C2 -/

/-- C2. History is linear: `push_annotation` always empties the redo
stack; `undo` pops the last element of `annotations` onto `redo` and `redo`
pops the last element of `redo` back onto `annotations`, each a no-op on an
empty source; and after `push A; push B; undo; push C` a redo is a no-op and
the annotation list is `[A, C]`. -/
theorem history_linear :
    (∀ (s : EditorState) (a : Annot),
      (s.push_annot a).annotations = s.annotations ++ [a] ∧ (s.push_annot a).redo = []) ∧
    (∀ s : EditorState, s.annotations = [] → s.undo = s) ∧
    (∀ (s : EditorState) (l : List Annot) (a : Annot), s.annotations = l ++ [a] →
      s.undo.annotations = l ∧ s.undo.redo = s.redo ++ [a]) ∧
    (∀ s : EditorState, s.redo = [] → s.redoStep = s) ∧
    (∀ (s : EditorState) (l : List Annot) (a : Annot), s.redo = l ++ [a] →
      s.redoStep.redo = l ∧ s.redoStep.annotations = s.annotations ++ [a]) ∧
    (∀ (s : EditorState) (A B C : Annot), s.annotations = [] →
      ((((s.push_annot A).push_annot B).undo.push_annot C).annotations = [A, C] ∧
       (((s.push_annot A).push_annot B).undo.push_annot C).redoStep =
         ((s.push_annot A).push_annot B).undo.push_annot C)) := by
  refine ⟨fun s a => ⟨rfl, rfl⟩, undo_of_empty, ?_, redoStep_of_empty, ?_, ?_⟩
  · intro s l a h
    rw [undo_concat s l a h]
    exact ⟨rfl, rfl⟩
  · intro s l a h
    rw [redoStep_concat s l a h]
    exact ⟨rfl, rfl⟩
  · intro s A B C h
    have h2 : ((s.push_annot A).push_annot B).annotations = [A] ++ [B] := by
      simp [EditorState.push_annot, h]
    rw [undo_concat _ [A] B h2]
    refine ⟨by simp [EditorState.push_annot], ?_⟩
    exact redoStep_of_empty _ rfl

theorem history_linear_witness :
    EditorState.new.undo = EditorState.new ∧
    (((EditorState.new.push_annot (.text ⟨1, 1⟩ "a" ⟨0, 0, 0, 1⟩ 22)).push_annot
        (.text ⟨2, 2⟩ "b" ⟨0, 0, 0, 1⟩ 22)).undo.push_annot
        (.text ⟨3, 3⟩ "c" ⟨0, 0, 0, 1⟩ 22)).annotations =
      [.text ⟨1, 1⟩ "a" ⟨0, 0, 0, 1⟩ 22, .text ⟨3, 3⟩ "c" ⟨0, 0, 0, 1⟩ 22] :=
  ⟨history_linear.2.1 EditorState.new rfl,
   (history_linear.2.2.2.2.2 EditorState.new _ _ _ rfl).1⟩

/-! ### C9 -/

/-- C9. Replacing the background clears `annotations`, `redo`, `draft`,
`drag_start_view`, `selected`, `selected_original` and `crop_rect`, installs
the new image, and leaves `tool`, `color`, `stroke_width`, `text_size`, the
viewport dimensions, `fit_to_window` and `zoom` unchanged, for every prior
state and every image. -/
theorem set_background_fresh_session (s : EditorState) (p : Pixbuf) :
    (s.set_background p).background = some p ∧
    (s.set_background p).annotations = [] ∧
    (s.set_background p).redo = [] ∧
    (s.set_background p).draft = none ∧
    (s.set_background p).drag_start_view = none ∧
    (s.set_background p).selected = none ∧
    (s.set_background p).selected_original = none ∧
    (s.set_background p).crop_rect = none ∧
    (s.set_background p).tool = s.tool ∧
    (s.set_background p).color = s.color ∧
    (s.set_background p).stroke_width = s.stroke_width ∧
    (s.set_background p).text_size = s.text_size ∧
    (s.set_background p).viewport_width = s.viewport_width ∧
    (s.set_background p).viewport_height = s.viewport_height ∧
    (s.set_background p).fit_to_window = s.fit_to_window ∧
    (s.set_background p).zoom = s.zoom :=
  ⟨rfl, rfl, rfl, rfl, rfl, rfl, rfl, rfl, rfl, rfl, rfl, rfl, rfl, rfl, rfl, rfl⟩

/-! ### C4 -/

/-- C4. If the state has no background, or the rectangle's normalized
width or height is below 1, then `apply_crop` returns `false` and the editor
state is unchanged in every field. -/
theorem apply_crop_failure (s : EditorState) (r : Rect)
    (h : s.background = none ∨ r.normalized.2.2.1 < 1 ∨ r.normalized.2.2.2 < 1) :
    apply_crop s r = (false, s) := by
  rcases h with h | h
  · simp [apply_crop, h]
  · rcases hbg : s.background with _ | bg
    · simp [apply_crop, hbg]
    · simp [apply_crop, hbg, h]

theorem apply_crop_failure_witness :
    apply_crop EditorState.new ⟨0, 0, 10, 10⟩ = (false, EditorState.new) :=
  apply_crop_failure EditorState.new ⟨0, 0, 10, 10⟩ (Or.inl rfl)

/-! ### C3 -/

/-- A concrete session for the crop example of the spec: a 200×200 background
and one pen annotation whose single point is at (50, 50). -/
def cropDemoState : EditorState :=
  { EditorState.new with
    background := some (.base 200 200)
    annotations := [.pen [⟨50, 50⟩] ⟨0, 0, 0, 1⟩ 4] }

/-- C3. For every state with a background and every crop rectangle whose
normalized width and height are at least 1, `apply_crop` succeeds, translates
every annotation by `(-x, -y)` for `(x, y)` the clamped normalized origin,
replaces the background with the clamped sub-image, clears `draft`,
`crop_rect` and `selected`, and leaves `redo` unchanged; in particular a pen
point at (50, 50) under a crop of `{x:20, y:20, w:100, h:100}` ends at
(30, 30) with a 100×100 background. -/
theorem apply_crop_success :
    (∀ (s : EditorState) (bg : Pixbuf) (r : Rect),
      s.background = some bg →
      1 ≤ r.normalized.2.2.1 → 1 ≤ r.normalized.2.2.2 →
      let c := clampRect r.normalized.1 r.normalized.2.1 r.normalized.2.2.1
        r.normalized.2.2.2 (bg.width : ℤ) (bg.height : ℤ)
      (apply_crop s r).1 = true ∧
      (apply_crop s r).2.annotations =
        s.annotations.map (fun a => move_annot a (-c.1) (-c.2.1)) ∧
      (apply_crop s r).2.background =
        some (Pixbuf.sub bg (roundHalf c.1) (roundHalf c.2.1)
          (roundHalf c.2.2.1) (roundHalf c.2.2.2)) ∧
      (apply_crop s r).2.draft = none ∧
      (apply_crop s r).2.crop_rect = none ∧
      (apply_crop s r).2.selected = none ∧
      (apply_crop s r).2.redo = s.redo) ∧
    ((apply_crop cropDemoState ⟨20, 20, 120, 120⟩).2.annotations =
        [.pen [⟨30, 30⟩] ⟨0, 0, 0, 1⟩ 4] ∧
      (apply_crop cropDemoState ⟨20, 20, 120, 120⟩).2.background.map Pixbuf.width =
        some 100 ∧
      (apply_crop cropDemoState ⟨20, 20, 120, 120⟩).2.background.map Pixbuf.height =
        some 100) := by
  constructor
  · intro s bg r hbg hw hh c
    have hcond : ¬(r.normalized.2.2.1 < 1 ∨ r.normalized.2.2.2 < 1) := by
      push_neg
      exact ⟨hw, hh⟩
    simp only [apply_crop, hbg]
    rw [if_neg hcond]
    exact ⟨rfl, rfl, rfl, rfl, rfl, rfl, rfl⟩
  · norm_num [apply_crop, cropDemoState, EditorState.new, Rect.normalized, clampRect,
      move_annot, roundHalf, Pixbuf.width, Pixbuf.height, abs_of_nonneg]

theorem apply_crop_success_witness :
    (apply_crop cropDemoState ⟨20, 20, 120, 120⟩).1 = true :=
  (apply_crop_success.1 cropDemoState (.base 200 200) ⟨20, 20, 120, 120⟩ rfl
    (by norm_num [Rect.normalized]) (by norm_num [Rect.normalized])).1

/-! ### C5 -/

/-- C5, amended. Clamping a normalized rectangle (width, height ≥ 1) to
an image with positive dimensions yields `x ≥ 0`, `y ≥ 0`, `w ≥ 1`, `h ≥ 1`,
and `x + w ≤ max image_w (x + 1)`, `y + h ≤ max image_h (y + 1)`; the
claimed `x + w ≤ image_w` and `y + h ≤ image_h` hold whenever the clamped
origin lies at least one unit inside the image (`x ≤ image_w - 1`,
`y ≤ image_h - 1`), but not in general, because the final floor of `w` and
`h` at 1 can push the rectangle past the boundary. -/
theorem clampRect_bounds (x y w h max_w max_h : ℚ)
    (hw : 1 ≤ w) (hh : 1 ≤ h) (hW : 1 ≤ max_w) (hH : 1 ≤ max_h) :
    0 ≤ (clampRect x y w h max_w max_h).1 ∧
    0 ≤ (clampRect x y w h max_w max_h).2.1 ∧
    1 ≤ (clampRect x y w h max_w max_h).2.2.1 ∧
    1 ≤ (clampRect x y w h max_w max_h).2.2.2 ∧
    (clampRect x y w h max_w max_h).1 + (clampRect x y w h max_w max_h).2.2.1 ≤
      max max_w ((clampRect x y w h max_w max_h).1 + 1) ∧
    (clampRect x y w h max_w max_h).2.1 + (clampRect x y w h max_w max_h).2.2.2 ≤
      max max_h ((clampRect x y w h max_w max_h).2.1 + 1) ∧
    ((clampRect x y w h max_w max_h).1 ≤ max_w - 1 →
      (clampRect x y w h max_w max_h).1 + (clampRect x y w h max_w max_h).2.2.1 ≤ max_w) ∧
    ((clampRect x y w h max_w max_h).2.1 ≤ max_h - 1 →
      (clampRect x y w h max_w max_h).2.1 + (clampRect x y w h max_w max_h).2.2.2 ≤ max_h)
    := by
  have e : clampRect x y w h max_w max_h =
      (min (max x 0) max_w, min (max y 0) max_h,
       max (min w (max_w - min (max x 0) max_w)) 1,
       max (min h (max_h - min (max y 0) max_h)) 1) := rfl
  rw [e]
  dsimp only
  set x₀ := min (max x 0) max_w with hx₀
  set y₀ := min (max y 0) max_h with hy₀
  have hx0 : 0 ≤ x₀ := le_min (le_max_right x 0) (by linarith)
  have hy0 : 0 ≤ y₀ := le_min (le_max_right y 0) (by linarith)
  refine ⟨hx0, hy0, le_max_right _ _, le_max_right _ _, ?_, ?_, ?_, ?_⟩
  · rcases le_total (min w (max_w - x₀)) 1 with hc | hc
    · rw [max_eq_right hc]
      exact le_max_right _ _
    · rw [max_eq_left hc]
      have h1 : min w (max_w - x₀) ≤ max_w - x₀ := min_le_right _ _
      exact le_max_of_le_left (by linarith)
  · rcases le_total (min h (max_h - y₀)) 1 with hc | hc
    · rw [max_eq_right hc]
      exact le_max_right _ _
    · rw [max_eq_left hc]
      have h1 : min h (max_h - y₀) ≤ max_h - y₀ := min_le_right _ _
      exact le_max_of_le_left (by linarith)
  · intro hx1
    have h1 : min w (max_w - x₀) ≤ max_w - x₀ := min_le_right _ _
    have h2 : max (min w (max_w - x₀)) 1 ≤ max_w - x₀ := max_le h1 (by linarith)
    linarith
  · intro hy1
    have h1 : min h (max_h - y₀) ≤ max_h - y₀ := min_le_right _ _
    have h2 : max (min h (max_h - y₀)) 1 ≤ max_h - y₀ := max_le h1 (by linarith)
    linarith

theorem clampRect_bounds_witness :
    ((1:ℚ) ≤ 10 ∧ (1:ℚ) ≤ 100) ∧
    (0 ≤ (clampRect 0 0 10 10 100 100).1 ∧
    0 ≤ (clampRect 0 0 10 10 100 100).2.1 ∧
    1 ≤ (clampRect 0 0 10 10 100 100).2.2.1 ∧
    1 ≤ (clampRect 0 0 10 10 100 100).2.2.2 ∧
    (clampRect 0 0 10 10 100 100).1 + (clampRect 0 0 10 10 100 100).2.2.1 ≤
      max 100 ((clampRect 0 0 10 10 100 100).1 + 1) ∧
    (clampRect 0 0 10 10 100 100).2.1 + (clampRect 0 0 10 10 100 100).2.2.2 ≤
      max 100 ((clampRect 0 0 10 10 100 100).2.1 + 1) ∧
    ((clampRect 0 0 10 10 100 100).1 ≤ 100 - 1 →
      (clampRect 0 0 10 10 100 100).1 + (clampRect 0 0 10 10 100 100).2.2.1 ≤ 100) ∧
    ((clampRect 0 0 10 10 100 100).2.1 ≤ 100 - 1 →
      (clampRect 0 0 10 10 100 100).2.1 + (clampRect 0 0 10 10 100 100).2.2.2 ≤ 100)) :=
  ⟨⟨by norm_num, by norm_num⟩,
   clampRect_bounds 0 0 10 10 100 100 (by norm_num) (by norm_num) (by norm_num) (by norm_num)⟩

/-- C5, counterexample to the claim as stated. The rectangle with corners
(100, 0) and (102, 2) has normalized form (100, 0, 2, 2) — width and height
2 ≥ 1 — and the 100×100 image has positive dimensions, yet the clamp
produces `x = 100`, `w = 1`, so `x + w = 101 > image_w`. -/
theorem clampRect_counterexample :
    Rect.normalized ⟨100, 0, 102, 2⟩ = (100, 0, 2, 2) ∧
    (1:ℚ) ≤ 2 ∧ (1:ℚ) ≤ 100 ∧
    clampRect 100 0 2 2 100 100 = (100, 0, 1, 2) ∧
    ¬((clampRect 100 0 2 2 100 100).1 + (clampRect 100 0 2 2 100 100).2.2.1 ≤ 100) := by
  norm_num [Rect.normalized, clampRect]

/-! ### Hit-test helpers -/

theorem hit_test_nil (p : Point) : hit_test [] p = none := rfl

theorem hit_test_concat (l : List Annot) (b : Annot) (p : Point) :
    hit_test (l ++ [b]) p =
      if annotHit b p then some l.length else hit_test l p := by
  unfold hit_test
  rw [List.enum_append]
  simp only [List.enumFrom, List.reverse_append, List.reverse_cons, List.reverse_nil,
    List.nil_append, List.singleton_append, hitFirst]

theorem hit_test_eq_none_iff (l : List Annot) (p : Point) :
    hit_test l p = none ↔ ∀ a ∈ l, annotHit a p = false := by
  induction l using List.reverseRecOn with
  | nil => simp [hit_test_nil]
  | append_singleton l b ih =>
    rw [hit_test_concat]
    by_cases hb : annotHit b p
    · rw [if_pos hb]
      constructor
      · intro h
        exact Option.noConfusion h
      · intro h
        have hfalse := h b (by simp)
        rw [hb] at hfalse
        cases hfalse
    · have hb' : annotHit b p = false := by rwa [Bool.not_eq_true] at hb
      rw [if_neg hb, ih]
      simp [List.mem_append, or_imp, forall_and, hb']

theorem hit_test_some_spec (l : List Annot) (p : Point) (i : ℕ) :
    hit_test l p = some i →
      i < l.length ∧
      (∃ a, l[i]? = some a ∧ annotHit a p = true) ∧
      (∀ j a, i < j → l[j]? = some a → annotHit a p = false) := by
  induction l using List.reverseRecOn with
  | nil => intro h; simp [hit_test_nil] at h
  | append_singleton l b ih =>
    rw [hit_test_concat]
    by_cases hb : annotHit b p
    · rw [if_pos hb]
      intro h
      obtain rfl : l.length = i := by injection h
      refine ⟨by simp, ⟨b, List.getElem?_concat_length l b, hb⟩, ?_⟩
      intro j a hj hja
      have hlen : (l ++ [b]).length ≤ j := by simp; omega
      rw [List.getElem?_eq_none hlen] at hja
      cases hja
    · rw [if_neg hb]
      intro h
      obtain ⟨hi, ⟨a, ha, hhit⟩, hafter⟩ := ih h
      refine ⟨by simp; omega, ⟨a, by rw [List.getElem?_append_left hi]; exact ha, hhit⟩, ?_⟩
      intro j a' hj hja
      rcases lt_trichotomy j l.length with hlt | heq | hgt
      · exact hafter j a' hj (by rwa [List.getElem?_append_left hlt] at hja)
      · subst heq
        rw [List.getElem?_concat_length] at hja
        injection hja with e
        subst e
        rwa [Bool.not_eq_true] at hb
      · have hlen : (l ++ [b]).length ≤ j := by simp; omega
        rw [List.getElem?_eq_none hlen] at hja
        cases hja

theorem annotHit_iff (a : Annot) (p : Point) :
    annotHit a p = true ↔
      ∃ b, annotation_bounds a = some b ∧
        (b.normalized.1 ≤ p.x ∧ p.x ≤ b.normalized.1 + b.normalized.2.2.1 ∧
         b.normalized.2.1 ≤ p.y ∧ p.y ≤ b.normalized.2.1 + b.normalized.2.2.2) := by
  unfold annotHit
  cases h : annotation_bounds a with
  | none => simp
  | some b => simp [Bool.and_eq_true, decide_eq_true_eq, and_assoc]

/-! ### C7 -/

/-- C7. The function `hit_test` scans the annotation list from last to first and
returns the index of the first annotation whose normalized bounding box
contains the query point, inclusively on all four sides: it returns `none`
iff no annotation's box contains the point; when it returns `some i`, the
annotation at `i` hits and every later (higher-index, more recently drawn)
annotation misses; an annotation with no bounding box (a zero-point pen
stroke) is skipped; and for two overlapping annotations `A` then `B`, a
point inside both yields `B`'s index. -/
theorem hit_test_topmost :
    (∀ (l : List Annot) (p : Point),
      hit_test l p = none ↔ ∀ a ∈ l, annotHit a p = false) ∧
    (∀ (l : List Annot) (p : Point) (i : ℕ), hit_test l p = some i →
      i < l.length ∧
      (∃ a, l[i]? = some a ∧ annotHit a p = true) ∧
      (∀ j a, i < j → l[j]? = some a → annotHit a p = false)) ∧
    (∀ (a : Annot) (p : Point), annotHit a p = true ↔
      ∃ b, annotation_bounds a = some b ∧
        (b.normalized.1 ≤ p.x ∧ p.x ≤ b.normalized.1 + b.normalized.2.2.1 ∧
         b.normalized.2.1 ≤ p.y ∧ p.y ≤ b.normalized.2.1 + b.normalized.2.2.2)) ∧
    (∀ (c : RGBA) (w : ℚ) (p : Point),
      annotation_bounds (.pen [] c w) = none ∧ annotHit (.pen [] c w) p = false) ∧
    (∀ (a b : Annot) (p : Point), annotHit b p = true → hit_test [a, b] p = some 1) := by
  refine ⟨hit_test_eq_none_iff, hit_test_some_spec, annotHit_iff,
    fun c w p => ⟨rfl, rfl⟩, ?_⟩
  intro a b p hb
  have e : ([a, b] : List Annot) = [a] ++ [b] := rfl
  rw [e, hit_test_concat, if_pos hb]
  rfl

theorem hit_test_topmost_witness :
    annotHit (Annot.rect ⟨0, 0, 10, 10⟩ ⟨0, 0, 0, 1⟩ 1) ⟨5, 5⟩ = true ∧
    hit_test [Annot.rect ⟨0, 0, 10, 10⟩ ⟨0, 0, 0, 1⟩ 2,
      Annot.rect ⟨0, 0, 10, 10⟩ ⟨0, 0, 0, 1⟩ 1] ⟨5, 5⟩ = some 1 :=
  have hb : annotHit (Annot.rect ⟨0, 0, 10, 10⟩ ⟨0, 0, 0, 1⟩ 1) ⟨5, 5⟩ = true := by
    norm_num [annotHit, annotation_bounds, Rect.normalized]
  ⟨hb, hit_test_topmost.2.2.2.2 (Annot.rect ⟨0, 0, 10, 10⟩ ⟨0, 0, 0, 1⟩ 2)
    (Annot.rect ⟨0, 0, 10, 10⟩ ⟨0, 0, 0, 1⟩ 1) ⟨5, 5⟩ hb⟩

/-! ### C8 -/

/-- C8, amended. For every Text annotation, its bounding box is
`{x1 = pos.x, y1 = pos.y - size, x2 = pos.x + max (0.6·size·len(text)) 1,
y2 = pos.y + 0.2·size}`: the horizontal extent `0.6·size·len(text)` is
floored at 1 (the source applies `.max(1.0)` to the width), so for the empty
string — and whenever `0.6·size·len(text) < 1` — `x2` is `pos.x + 1` rather
than the claimed `pos.x + 0.6·size·len(text)`. -/
theorem text_bounds_formula (pos : Point) (t : String) (c : RGBA) (size : ℚ) :
    annotation_bounds (.text pos t c size) =
      some ⟨pos.x, pos.y - size,
        pos.x + max ((6/10) * size * (t.utf8ByteSize : ℚ)) 1,
        pos.y + (2/10) * size⟩ := by
  simp only [annotation_bounds]
  rw [(by ring : (t.utf8ByteSize : ℚ) * size * (6/10) = (6/10) * size * (t.utf8ByteSize : ℚ)),
    (by ring : size * (2/10 : ℚ) = (2/10) * size)]

/-- C8, counterexample to the claim as stated. A Text annotation with the
empty string at (0, 0) and size 10: the claim predicts
`x2 = pos.x + 0.6·size·len(text) = 0`, but the code yields `x2 = 1`. -/
theorem text_bounds_counterexample :
    annotation_bounds (.text ⟨0, 0⟩ "" ⟨0, 0, 0, 1⟩ 10) = some ⟨0, -10, 1, 2⟩ ∧
    (1 : ℚ) ≠ 0 + (6/10) * 10 * (("" : String).utf8ByteSize : ℚ) := by
  have h0 : ("" : String).utf8ByteSize = 0 := rfl
  constructor
  · norm_num [annotation_bounds, h0]
  · rw [h0]
    norm_num

/-! ### C1 -/

/-- C1, which the code violates. A state with a stale selection index is
reachable under the step relation of the public operations: load a 200×200
image, place a text annotation with the Text tool, switch to Select and
click on the annotation (so `selected = some 0`), then press Undo.
`EditorState::undo` (editor.rs:131-135) pops the annotation but leaves
`selected` untouched, so the resulting state has `selected = some 0` while
`annotations` is empty — exactly the stale index the invariant forbids (and
`draw`, editor.rs:173-183, would index `annotations[0]` out of bounds on
this state). -/
theorem stale_selection_reachable :
    Relation.ReflTransGen Step EditorState.new staleTrace ∧
    staleTrace.selected = some 0 ∧
    staleTrace.annotations = [] ∧
    ¬ selectedValid staleTrace := by
  have hfacts : staleTrace.selected = some 0 ∧ staleTrace.annotations = [] := by
    norm_num [staleTrace, EditorState.undo, selectClick, switchTool, textClick,
      applyBackgroundOp, EditorState.set_background, EditorState.push_annot,
      EditorState.new, map_to_image, view_transform, Pixbuf.width, Pixbuf.height,
      hit_test, hitFirst, annotHit, annotation_bounds, Rect.normalized, List.enum,
      abs_of_nonneg]
  refine ⟨?_, hfacts.1, hfacts.2, ?_⟩
  · exact Relation.ReflTransGen.tail
      (Relation.ReflTransGen.tail
        (Relation.ReflTransGen.tail
          (Relation.ReflTransGen.tail
            (Relation.ReflTransGen.tail
              (Relation.ReflTransGen.single
                (Step.applyBackground EditorState.new (Pixbuf.base 200 200)))
              (Step.toolToggled _ Tool.text))
            (Step.textPressed _ 50 50 rfl))
          (Step.toolToggled _ Tool.select))
        (Step.selectPressed _ 50 50 rfl))
      (Step.undoClicked _)
  · intro hvalid
    have h0 := hvalid 0 hfacts.1
    rw [hfacts.2] at h0
    simp at h0
